import Mathlib

/-!
Shallow embedding of `src/queue2.rs`: a dynamically extensible queue of audio
sample sources (`SourcesQueue`) driven by a `SourcesQueueController` through
two FIFO message channels.  Samples are embedded as `Int` (the Rust code is
generic over `S : Sample`; `0 : Int` plays the role of `S::zero_value()`).
An abstract boxed `dyn Source` is embedded as the finite list of samples it
will still produce together with the metadata it reports; each mpsc channel
is embedded as the list of messages it currently holds, oldest first, so the
controller-consumer pair is a single state record and the consumer's
`Iterator::next` is a state-transition function.
-/

/-- The four controller commands (`MusicPlayerCommand` in `queue2.rs`). -/
inductive Cmd where
  | play
  | pause
  | stop
  | next_track
deriving DecidableEq

/-- An abstract sample source (`Box<dyn Source<Item = S> + Send>`): the list
of samples it will still produce, plus the metadata it reports.  `frameLen`
is what its `current_frame_len()` returns and `sizeHintHi` is its
`size_hint().1`. -/
structure Src where
  samples : List Int
  channels : Nat
  sampleRate : Nat
  frameLen : Option Nat
  sizeHintHi : Option Nat
deriving DecidableEq

/-- Modelled from the spec: the external silence source
`Zero::<S>::new(ch, rate).take_duration(ms milliseconds)` (the `source`
module is not under `src/`).  Per the spec it is "a sample source that
produces an infinite run of zero-valued samples at a configurable
channel/rate, boundable to a fixed duration", so bounded to `ms`
milliseconds it yields `rate * ms / 1000 * ch` zero-valued samples and
reports the configured channel count and rate, no frame length and no
size-hint upper bound. -/
def Zero_take_duration (ch rate ms : Nat) : Src :=
  { samples := List.replicate (rate * ms / 1000 * ch) 0,
    channels := ch,
    sampleRate := rate,
    frameLen := none,
    sizeHintHi := none }

/-- Modelled from the spec: the external `Empty` source held by the initial
current slot (the `source` module is not under `src/`).  It produces no
samples; the channel count 1 and sample rate 48000 it reports are the values
the repository's own `basic` test asserts before any sample is drawn. -/
def Empty_new : Src :=
  { samples := [], channels := 1, sampleRate := 48000,
    frameLen := none, sizeHintHi := some 0 }

/-- State of a `SourcesQueue` together with the two mpsc channels that link
it to its `SourcesQueueController`; each channel holds its undelivered
messages, oldest first. -/
structure QState where
  sound_queue : List Src
  current : Src
  keep_alive_if_empty : Bool
  paused : Bool
  command_channel : List Cmd
  sound_channel : List Src
deriving DecidableEq

/-- The `queue2` constructor: empty pending queue, `Empty` current source,
not paused, both channels empty. -/
def queue2 (keep_alive_if_empty : Bool) : QState :=
  { sound_queue := [], current := Empty_new,
    keep_alive_if_empty := keep_alive_if_empty, paused := false,
    command_channel := [], sound_channel := [] }

namespace Controller

/-- `SourcesQueueController::append`: sends the source into the sound
channel. -/
def append (q : QState) (s : Src) : QState :=
  { q with sound_channel := q.sound_channel ++ [s] }

/-- `SourcesQueueController::play`. -/
def play (q : QState) : QState :=
  { q with command_channel := q.command_channel ++ [Cmd.play] }

/-- `SourcesQueueController::pause`. -/
def pause (q : QState) : QState :=
  { q with command_channel := q.command_channel ++ [Cmd.pause] }

/-- `SourcesQueueController::next`. -/
def next (q : QState) : QState :=
  { q with command_channel := q.command_channel ++ [Cmd.next_track] }

/-- `SourcesQueueController::stop`. -/
def stop (q : QState) : QState :=
  { q with command_channel := q.command_channel ++ [Cmd.stop] }

end Controller

/-- The `THRESHOLD` constant of `current_frame_len`. -/
def THRESHOLD : Nat := 512

/-- The size-hint tier and the constant tier of `Source::current_frame_len`
for `SourcesQueue`; the code falls through to these whenever the first tier
does not return. -/
def frameLenFromSizeHint (sh : Option Nat) : Option Nat :=
  match sh with
  | some val => if val < THRESHOLD ∧ val ≠ 0 then some val else some THRESHOLD
  | none => some THRESHOLD

/-- `Source::current_frame_len` for `SourcesQueue`. -/
def current_frame_len (q : QState) : Option Nat :=
  match q.current.frameLen with
  | some val => if val ≠ 0 then some val else frameLenFromSizeHint q.current.sizeHintHi
  | none => frameLenFromSizeHint q.current.sizeHintHi

/-- `Source::channels` for `SourcesQueue`. -/
def channels (q : QState) : Nat :=
  q.current.channels

/-- `Source::sample_rate` for `SourcesQueue`. -/
def sample_rate (q : QState) : Nat :=
  q.current.sampleRate

/-- `SourcesQueue::go_next`.  `none` models `Err(())` (the caller then leaves
the state unchanged), `some` models `Ok(())` together with the updated state;
the match on `sound_queue` mirrors the `len() == 0` test and `remove(0)`. -/
def go_next (q : QState) : Option QState :=
  match q.sound_queue with
  | [] =>
    if q.keep_alive_if_empty then
      some { q with current := Zero_take_duration 1 44100 10 }
    else
      none
  | s :: rest => some { q with current := s, sound_queue := rest }

/-- `SourcesQueue::handle_command` (the `let _ = self.go_next()` discards a
failure, keeping the state `go_next` left behind). -/
def handle_command (q : QState) (c : Cmd) : QState :=
  match c with
  | Cmd.play => { q with paused := false }
  | Cmd.pause => { q with paused := true }
  | Cmd.next_track =>
    match go_next q with
    | some q' => q'
    | none => q
  | Cmd.stop =>
    match go_next { q with sound_queue := [] } with
    | some q' => q'
    | none => { q with sound_queue := [] }

/-- `SourcesQueue::read_command_channel`: a single `try_recv` per call. -/
def read_command_channel (q : QState) : QState :=
  match q.command_channel with
  | [] => q
  | c :: rest => handle_command { q with command_channel := rest } c

/-- `SourcesQueue::read_sound_channel`: a single `try_recv` per call. -/
def read_sound_channel (q : QState) : QState :=
  match q.sound_channel with
  | [] => q
  | s :: rest => { q with sound_channel := rest, sound_queue := q.sound_queue ++ [s] }

/-- The two channel reads at the top of each iteration of the loop in
`Iterator::next`. -/
def drain (q : QState) : QState :=
  read_sound_channel (read_command_channel q)

/-- The remainder of one iteration of the loop in `Iterator::next` after the
channel reads: `Sum.inl` is an early return carrying the produced value and
the final state, `Sum.inr` continues the loop with the state updated by a
successful `go_next`. -/
def loopBody (q : QState) : (Option Int × QState) ⊕ QState :=
  if q.paused then
    Sum.inl (some 0, q)
  else
    match q.current.samples with
    | a :: rest => Sum.inl (some a, { q with current := { q.current with samples := rest } })
    | [] =>
      match go_next q with
      | none => Sum.inl (none, q)
      | some q' => Sum.inr q'

/-- Number of messages and pending sources held by a state; the loop in
`Iterator::next` never increases it. -/
def chanLoad (q : QState) : Nat :=
  q.command_channel.length + q.sound_channel.length + q.sound_queue.length

/-- Termination measure for the loop in `Iterator::next`. -/
def qMeasure (q : QState) : Nat :=
  2 * chanLoad q + (if q.current.samples = [] then 1 else 0)

theorem go_next_load {q q' : QState} (h : go_next q = some q') :
    chanLoad q' ≤ chanLoad q ∧ q'.command_channel = q.command_channel ∧
      q'.sound_channel = q.sound_channel := by
  cases hq : q.sound_queue with
  | nil =>
    by_cases hk : q.keep_alive_if_empty
    · simp only [go_next, hq, hk, if_true, Option.some.injEq] at h
      subst h
      simp [chanLoad]
    · simp [go_next, hq, hk] at h
  | cons s rest =>
    simp only [go_next, hq, Option.some.injEq] at h
    subst h
    simp [chanLoad, hq]

theorem handle_command_load (q : QState) (c : Cmd) :
    chanLoad (handle_command q c) ≤ chanLoad q ∧
      (handle_command q c).command_channel = q.command_channel ∧
      (handle_command q c).sound_channel = q.sound_channel := by
  cases c with
  | play => simp [handle_command, chanLoad]
  | pause => simp [handle_command, chanLoad]
  | next_track =>
    cases hg : go_next q with
    | none => simp [handle_command, hg]
    | some q' =>
      obtain ⟨h1, h2, h3⟩ := go_next_load hg
      simp [handle_command, hg, h1, h2, h3]
  | stop =>
    cases hg : go_next { q with sound_queue := [] } with
    | none =>
      simp only [handle_command, hg]
      simp [chanLoad]
    | some q' =>
      obtain ⟨h1, h2, h3⟩ := go_next_load hg
      simp only [handle_command, hg]
      have hle : chanLoad { q with sound_queue := [] } ≤ chanLoad q := by
        simp [chanLoad]
      exact ⟨le_trans h1 hle, by simpa using h2, by simpa using h3⟩

theorem read_command_load (q : QState) :
    chanLoad (read_command_channel q) ≤ chanLoad q := by
  cases hc : q.command_channel with
  | nil => simp [read_command_channel, hc]
  | cons c rest =>
    simp only [read_command_channel, hc]
    have := (handle_command_load { q with command_channel := rest } c).1
    simp [chanLoad, hc] at this ⊢
    omega

theorem read_command_load_lt (q : QState) (h : q.command_channel ≠ []) :
    chanLoad (read_command_channel q) < chanLoad q := by
  cases hc : q.command_channel with
  | nil => exact absurd hc h
  | cons c rest =>
    simp only [read_command_channel, hc]
    have := (handle_command_load { q with command_channel := rest } c).1
    simp [chanLoad, hc] at this ⊢
    omega

theorem read_command_of_nil {q : QState} (h : q.command_channel = []) :
    read_command_channel q = q := by
  simp [read_command_channel, h]

theorem read_sound_load (q : QState) :
    chanLoad (read_sound_channel q) = chanLoad q := by
  cases hs : q.sound_channel with
  | nil => simp [read_sound_channel, hs]
  | cons s rest => simp [read_sound_channel, hs, chanLoad]; omega

theorem read_sound_of_nil {q : QState} (h : q.sound_channel = []) :
    read_sound_channel q = q := by
  simp [read_sound_channel, h]

theorem read_sound_current (q : QState) :
    (read_sound_channel q).current = q.current := by
  cases hs : q.sound_channel with
  | nil => simp [read_sound_channel, hs]
  | cons s rest => simp [read_sound_channel, hs]

theorem read_sound_paused (q : QState) :
    (read_sound_channel q).paused = q.paused := by
  cases hs : q.sound_channel with
  | nil => simp [read_sound_channel, hs]
  | cons s rest => simp [read_sound_channel, hs]

theorem read_sound_keep_alive (q : QState) :
    (read_sound_channel q).keep_alive_if_empty = q.keep_alive_if_empty := by
  cases hs : q.sound_channel with
  | nil => simp [read_sound_channel, hs]
  | cons s rest => simp [read_sound_channel, hs]

theorem read_sound_command_channel (q : QState) :
    (read_sound_channel q).command_channel = q.command_channel := by
  cases hs : q.sound_channel with
  | nil => simp [read_sound_channel, hs]
  | cons s rest => simp [read_sound_channel, hs]

theorem read_sound_queue_ne {q : QState} (h : q.sound_channel ≠ []) :
    (read_sound_channel q).sound_queue ≠ [] := by
  cases hs : q.sound_channel with
  | nil => exact absurd hs h
  | cons s rest => simp [read_sound_channel, hs]

theorem qMeasure_lb (q : QState) : 2 * chanLoad q ≤ qMeasure q := by
  unfold qMeasure
  split <;> omega

theorem qMeasure_of_ne {q : QState} (h : q.current.samples ≠ []) :
    qMeasure q = 2 * chanLoad q := by
  unfold qMeasure
  rw [if_neg h]
  rfl

theorem qMeasure_of_nil {q : QState} (h : q.current.samples = []) :
    qMeasure q = 2 * chanLoad q + 1 := by
  unfold qMeasure
  rw [if_pos h]

theorem drain_load (q : QState) : chanLoad (drain q) ≤ chanLoad q := by
  unfold drain
  rw [read_sound_load]
  exact read_command_load q

theorem zero_samples_ne : (Zero_take_duration 1 44100 10).samples ≠ [] := by
  decide

theorem measure_decrease (q q' : QState) (h : loopBody (drain q) = Sum.inr q') :
    qMeasure q' < qMeasure q := by
  by_cases hp : (drain q).paused
  · simp [loopBody, hp] at h
  · cases hs : (drain q).current.samples with
    | cons a rest => simp [loopBody, hp, hs] at h
    | nil =>
      cases hg : go_next (drain q) with
      | none => simp [loopBody, hp, hs, hg] at h
      | some q2 =>
        simp [loopBody, hp, hs, hg] at h
        subst h
        have hload : chanLoad (drain q) ≤ chanLoad q := drain_load q
        have hub : qMeasure q2 ≤ 2 * chanLoad q2 + 1 := by
          unfold qMeasure
          split <;> omega
        have hlb : 2 * chanLoad q ≤ qMeasure q := qMeasure_lb q
        cases hq : (drain q).sound_queue with
        | cons s rest =>
          simp only [go_next, hq, Option.some.injEq] at hg
          have hpop : chanLoad q2 + 1 = chanLoad (drain q) := by
            rw [← hg]
            simp [chanLoad, hq]
            omega
          omega
        | nil =>
          by_cases hk : (drain q).keep_alive_if_empty
          · simp only [go_next, hq, hk, if_true, Option.some.injEq] at hg
            have hsame : chanLoad q2 = chanLoad (drain q) := by
              rw [← hg]
              simp [chanLoad, hq]
            have hcur' : q2.current.samples ≠ [] := by
              rw [← hg]
              exact zero_samples_ne
            have hm' : qMeasure q2 = 2 * chanLoad q2 := qMeasure_of_ne hcur'
            by_cases hcmd : q.command_channel = []
            · have hdq1 : read_command_channel q = q := read_command_of_nil hcmd
              by_cases hsnd : q.sound_channel = []
              · have hdq : drain q = q := by
                  unfold drain
                  rw [hdq1, read_sound_of_nil hsnd]
                have hcur : q.current.samples = [] := by rw [← hdq]; exact hs
                have hm : qMeasure q = 2 * chanLoad q + 1 := qMeasure_of_nil hcur
                rw [hm', hsame, hdq, hm]
                omega
              · have : (drain q).sound_queue ≠ [] := by
                  unfold drain
                  rw [hdq1]
                  exact read_sound_queue_ne hsnd
                exact absurd hq this
            · have hlt : chanLoad (drain q) < chanLoad q := by
                unfold drain
                rw [read_sound_load]
                exact read_command_load_lt q hcmd
              omega
          · simp [go_next, hq, hk] at hg

/-- `Iterator::next` for `SourcesQueue`: each loop iteration reads one
command, reads one appended source, then either returns (a pause-zero, a
sample of the current source, or end-of-stream) or advances to the next
source and loops. -/
def next (q : QState) : Option Int × QState :=
  match h : loopBody (drain q) with
  | Sum.inl r => r
  | Sum.inr q' => next q'
termination_by qMeasure q
decreasing_by exact measure_decrease q q' h

theorem next_done {q : QState} {r : Option Int × QState}
    (h : loopBody (drain q) = Sum.inl r) : next q = r := by
  unfold next
  rw [h]

theorem next_continue {q q' : QState}
    (h : loopBody (drain q) = Sum.inr q') : next q = next q' := by
  conv_lhs => unfold next
  rw [h]

theorem loopBody_paused {q : QState} (hp : q.paused = true) :
    loopBody q = Sum.inl (some 0, q) := by
  unfold loopBody
  rw [if_pos hp]

theorem loopBody_pop {q : QState} {a : Int} {t : List Int}
    (hp : q.paused = false) (h : q.current.samples = a :: t) :
    loopBody q = Sum.inl (some a, { q with current := { q.current with samples := t } }) := by
  unfold loopBody
  rw [if_neg (by simp [hp]), h]

theorem loopBody_end {q : QState} (hp : q.paused = false)
    (h : q.current.samples = []) (hg : go_next q = none) :
    loopBody q = Sum.inl (none, q) := by
  unfold loopBody
  rw [if_neg (by simp [hp]), h, hg]

theorem loopBody_advance {q q' : QState} (hp : q.paused = false)
    (h : q.current.samples = []) (hg : go_next q = some q') :
    loopBody q = Sum.inr q' := by
  unfold loopBody
  rw [if_neg (by simp [hp]), h, hg]

/-- Outputs and final state of `n` successive calls to `Iterator::next`. -/
def run : Nat → QState → List (Option Int) × QState
  | 0, q => ([], q)
  | n + 1, q => ((next q).1 :: (run n (next q).2).1, (run n (next q).2).2)

/-- All samples still to be delivered by the pair: the current source's
remainder, then the pending queue's sources in order, then the sources still
sitting in the sound channel in arrival order. -/
def totalSamples (q : QState) : List Int :=
  q.current.samples ++ ((q.sound_queue.map Src.samples).flatten
    ++ (q.sound_channel.map Src.samples).flatten)

/-- A state with no pending command, not paused, and keep-alive disabled. -/
def Quiet (q : QState) : Prop :=
  q.command_channel = [] ∧ q.paused = false ∧ q.keep_alive_if_empty = false

theorem read_sound_total (q : QState) :
    totalSamples (read_sound_channel q) = totalSamples q := by
  cases hs : q.sound_channel with
  | nil => rw [read_sound_of_nil hs]
  | cons s rest =>
    simp [read_sound_channel, hs, totalSamples]

theorem next_quiet_aux : ∀ (n : Nat) (q : QState), qMeasure q < n → Quiet q →
    (next q).1 = (totalSamples q).head? ∧
      totalSamples (next q).2 = (totalSamples q).tail ∧ Quiet (next q).2 := by
  intro n
  induction n with
  | zero => intro q h; omega
  | succ n ih =>
    rintro q hm ⟨hc, hp, hk⟩
    have hd : drain q = read_sound_channel q := by
      unfold drain
      rw [read_command_of_nil hc]
    have hps : (read_sound_channel q).paused = false := by
      rw [read_sound_paused]; exact hp
    have htot : totalSamples (read_sound_channel q) = totalSamples q :=
      read_sound_total q
    cases ha : q.current.samples with
    | cons a t =>
      have hcs : (read_sound_channel q).current.samples = a :: t := by
        rw [read_sound_current]; exact ha
      have hn : next q = (some a,
          { read_sound_channel q with
            current := { (read_sound_channel q).current with samples := t } }) :=
        next_done (by rw [hd]; exact loopBody_pop hps hcs)
      have hflats : (((read_sound_channel q).sound_queue.map Src.samples).flatten
            ++ ((read_sound_channel q).sound_channel.map Src.samples).flatten)
          = ((q.sound_queue.map Src.samples).flatten
            ++ (q.sound_channel.map Src.samples).flatten) := by
        have h1 := htot
        unfold totalSamples at h1
        rw [read_sound_current, ha] at h1
        exact List.append_cancel_left h1
      refine ⟨?_, ?_, ?_⟩
      · rw [hn]
        simp [totalSamples, ha]
      · rw [hn]
        simp only [totalSamples, ha]
        simp only [List.cons_append, List.tail_cons]
        exact congrArg (t ++ ·) hflats
      · rw [hn]
        refine ⟨?_, ?_, ?_⟩
        · show (read_sound_channel q).command_channel = []
          rw [read_sound_command_channel]; exact hc
        · exact hps
        · show (read_sound_channel q).keep_alive_if_empty = false
          rw [read_sound_keep_alive]; exact hk
    | nil =>
      have hcs : (read_sound_channel q).current.samples = [] := by
        rw [read_sound_current]; exact ha
      cases hqq : (read_sound_channel q).sound_queue with
      | nil =>
        have hsnd : q.sound_channel = [] := by
          by_contra hne
          exact read_sound_queue_ne hne hqq
        have hrs : read_sound_channel q = q := read_sound_of_nil hsnd
        rw [hrs] at hqq
        have hg : go_next (read_sound_channel q) = none := by
          rw [hrs]
          unfold go_next
          rw [hqq]
          rw [if_neg (by simp [hk])]
        have hn : next q = (none, read_sound_channel q) :=
          next_done (by rw [hd]; exact loopBody_end hps hcs hg)
        have htq : totalSamples q = [] := by
          simp [totalSamples, ha, hqq, hsnd]
        refine ⟨?_, ?_, ?_⟩
        · rw [hn, htq]; rfl
        · rw [hn, hrs, htq]
          rfl
        · rw [hn, hrs]
          exact ⟨hc, hp, hk⟩
      | cons s rest =>
        have hg : go_next (read_sound_channel q)
            = some { read_sound_channel q with current := s, sound_queue := rest } := by
          unfold go_next
          rw [hqq]
        have hstep : loopBody (drain q)
            = Sum.inr { read_sound_channel q with current := s, sound_queue := rest } := by
          rw [hd]; exact loopBody_advance hps hcs hg
        have hn : next q
            = next { read_sound_channel q with current := s, sound_queue := rest } :=
          next_continue hstep
        have hless : qMeasure { read_sound_channel q with current := s, sound_queue := rest }
            < qMeasure q := measure_decrease q _ hstep
        have hq3 : Quiet { read_sound_channel q with current := s, sound_queue := rest } := by
          refine ⟨?_, ?_, ?_⟩
          · show (read_sound_channel q).command_channel = []
            rw [read_sound_command_channel]; exact hc
          · exact hps
          · show (read_sound_channel q).keep_alive_if_empty = false
            rw [read_sound_keep_alive]; exact hk
        have htot3 : totalSamples { read_sound_channel q with current := s, sound_queue := rest }
            = totalSamples q := by
          rw [← htot]
          unfold totalSamples
          rw [hcs, hqq]
          simp
        obtain ⟨i1, i2, i3⟩ := ih { read_sound_channel q with current := s, sound_queue := rest }
          (by omega) hq3
        refine ⟨?_, ?_, ?_⟩
        · rw [hn, i1, htot3]
        · rw [hn, i2, htot3]
        · rw [hn]; exact i3

theorem next_quiet (q : QState) (h : Quiet q) :
    (next q).1 = (totalSamples q).head? ∧
      totalSamples (next q).2 = (totalSamples q).tail ∧ Quiet (next q).2 :=
  next_quiet_aux (qMeasure q + 1) q (by omega) h

theorem run_quiet : ∀ (L : List Int) (q : QState), Quiet q → totalSamples q = L →
    (run (L.length + 1) q).1 = L.map some ++ [none] := by
  intro L
  induction L with
  | nil =>
    intro q hq hL
    obtain ⟨h1, _, _⟩ := next_quiet q hq
    rw [hL] at h1
    simp [run, h1]
  | cons a t ih =>
    intro q hq hL
    obtain ⟨h1, h2, h3⟩ := next_quiet q hq
    rw [hL] at h1 h2
    have hrec : (run (t.length + 1) (next q).2).1 = t.map some ++ [none] :=
      ih (next q).2 h3 (by rw [h2]; rfl)
    simp only [List.length_cons]
    have hh : (run (t.length + 1 + 1) q).1
        = (next q).1 :: (run (t.length + 1) (next q).2).1 := rfl
    rw [hh, h1, hrec]
    simp

theorem next_drain {q : QState} (h : drain (drain q) = drain q) :
    next q = next (drain q) := by
  cases hl : loopBody (drain q) with
  | inl r =>
    rw [next_done hl, @next_done (drain q) r (by rw [h]; exact hl)]
  | inr q2 =>
    rw [next_continue hl, @next_continue (drain q) q2 (by rw [h]; exact hl)]

theorem run_fst_congr (n : Nat) {q q' : QState} (h : next q = next q') :
    (run n q).1 = (run n q').1 := by
  cases n with
  | zero => rfl
  | succ n => simp [run, h]

theorem next_paused {q : QState} (hp : q.paused = true) (hc : q.command_channel = []) :
    next q = (some 0, read_sound_channel q) := by
  have hd : drain q = read_sound_channel q := by
    unfold drain
    rw [read_command_of_nil hc]
  exact next_done (by
    rw [hd]
    exact loopBody_paused (by rw [read_sound_paused]; exact hp))

theorem run_paused : ∀ (n : Nat) (q : QState), q.paused = true → q.command_channel = [] →
    (run n q).1 = List.replicate n (some 0) ∧ (run n q).2.current = q.current ∧
      (run n q).2.paused = true ∧ (run n q).2.command_channel = [] := by
  intro n
  induction n with
  | zero => intro q hp hc; exact ⟨rfl, rfl, hp, hc⟩
  | succ n ih =>
    intro q hp hc
    have hn : next q = (some 0, read_sound_channel q) := next_paused hp hc
    obtain ⟨i1, i2, i3, i4⟩ := ih (read_sound_channel q)
      (by rw [read_sound_paused]; exact hp)
      (by rw [read_sound_command_channel]; exact hc)
    refine ⟨?_, ?_, ?_, ?_⟩
    · show (next q).1 :: (run n (next q).2).1 = List.replicate (n + 1) (some 0)
      rw [hn]
      show some 0 :: (run n (read_sound_channel q)).1 = List.replicate (n + 1) (some 0)
      rw [i1, List.replicate_succ]
    · show (run n (next q).2).2.current = q.current
      rw [hn]
      show (run n (read_sound_channel q)).2.current = q.current
      rw [i2, read_sound_current]
    · show (run n (next q).2).2.paused = true
      rw [hn]
      exact i3
    · show (run n (next q).2).2.command_channel = []
      rw [hn]
      exact i4

/-- A keep-alive state that can only ever produce zero-valued samples: the
current source's remaining samples are all zero, nothing is pending anywhere,
and the consumer is not paused. -/
def AllZeroState (q : QState) : Prop :=
  (∀ x ∈ q.current.samples, x = 0) ∧ q.sound_queue = [] ∧ q.sound_channel = [] ∧
    q.command_channel = [] ∧ q.keep_alive_if_empty = true ∧ q.paused = false

theorem next_allzero {q : QState} (h : AllZeroState q) :
    (next q).1 = some 0 ∧ AllZeroState (next q).2 := by
  obtain ⟨hz, hq, hs, hc, hk, hp⟩ := h
  have hd : drain q = q := by
    unfold drain
    rw [read_command_of_nil hc, read_sound_of_nil hs]
  cases hcur : q.current.samples with
  | cons a t =>
    have hn : next q = (some a, { q with current := { q.current with samples := t } }) :=
      next_done (by rw [hd]; exact loopBody_pop hp hcur)
    have ha : a = 0 := hz a (by rw [hcur]; exact List.mem_cons_self a t)
    rw [hn]
    refine ⟨by rw [ha], ?_, hq, hs, hc, hk, hp⟩
    intro x hx
    exact hz x (by rw [hcur]; exact List.mem_cons_of_mem a hx)
  | nil =>
    have hg : go_next q = some { q with current := Zero_take_duration 1 44100 10 } := by
      unfold go_next
      rw [hq, if_pos hk]
    have hcont : next q = next { q with current := Zero_take_duration 1 44100 10 } :=
      next_continue (by rw [hd]; exact loopBody_advance hp hcur hg)
    have hz2 : ({ q with current := Zero_take_duration 1 44100 10 }).current.samples
        = 0 :: List.replicate 440 0 := by
      show (Zero_take_duration 1 44100 10).samples = 0 :: List.replicate 440 0
      unfold Zero_take_duration
      norm_num
      rw [show (441 : Nat) = 440 + 1 from rfl, List.replicate_succ]
    have hd2 : drain { q with current := Zero_take_duration 1 44100 10 }
        = { q with current := Zero_take_duration 1 44100 10 } := by
      unfold drain
      rw [@read_command_of_nil { q with current := Zero_take_duration 1 44100 10 } hc,
        @read_sound_of_nil { q with current := Zero_take_duration 1 44100 10 } hs]
    have hn2 := @next_done { q with current := Zero_take_duration 1 44100 10 } _
      (by rw [hd2]; exact loopBody_pop hp hz2)
    rw [hcont, hn2]
    refine ⟨rfl, ?_, hq, hs, hc, hk, hp⟩
    intro x hx
    exact List.eq_of_mem_replicate hx

theorem run_allzero : ∀ (n : Nat) (q : QState), AllZeroState q →
    (run n q).1 = List.replicate n (some 0) := by
  intro n
  induction n with
  | zero => intro q _; rfl
  | succ n ih =>
    intro q h
    obtain ⟨h1, h2⟩ := next_allzero h
    show (next q).1 :: (run n (next q).2).1 = List.replicate (n + 1) (some 0)
    rw [h1, ih (next q).2 h2, List.replicate_succ]

theorem totalSamples_append (p : QState) (s : Src) :
    totalSamples (Controller.append p s) = totalSamples p ++ s.samples := by
  simp [totalSamples, Controller.append]

theorem foldl_append_sound_channel : ∀ (l : List Src) (q : QState),
    l.foldl Controller.append q = { q with sound_channel := q.sound_channel ++ l } := by
  intro l
  induction l with
  | nil => intro q; simp
  | cons s rest ih =>
    intro q
    rw [List.foldl_cons, ih]
    simp [Controller.append]

/-- Claim C1: with `keep_alive_if_empty = false`, any sources appended through
the controller before consumption and no commands, the successive
`Iterator::next` calls yield exactly the concatenation of the sources' sample
sequences in append order, with no omission or duplication, followed by
end-of-stream. -/
theorem c1_concatenation_in_order (srcs : List Src) :
    (run (((srcs.map Src.samples).flatten).length + 1)
        (srcs.foldl Controller.append (queue2 false))).1
      = ((srcs.map Src.samples).flatten).map some ++ [none] := by
  apply run_quiet
  · rw [foldl_append_sound_channel]
    exact ⟨rfl, rfl, rfl⟩
  · rw [foldl_append_sound_channel]
    simp [totalSamples, queue2, Empty_new]

/-- The first source of the repository's (ignored) `basic` test:
`SamplesBuffer::new(1, 48000, vec![10i16, -10, 10, -10])`. -/
def basic_first : Src :=
  { samples := [10, -10, 10, -10], channels := 1, sampleRate := 48000,
    frameLen := none, sizeHintHi := some 4 }

/-- The second source of the repository's (ignored) `basic` test:
`SamplesBuffer::new(2, 96000, vec![5i16, 5, 5, 5])`. -/
def basic_second : Src :=
  { samples := [5, 5, 5, 5], channels := 2, sampleRate := 96000,
    frameLen := none, sizeHintHi := some 4 }

/-- The `basic` test setup: `queue2(false)` with both sources appended. -/
def basic_queue : QState :=
  Controller.append (Controller.append (queue2 false) basic_first) basic_second

/-- Claim C2 (code bug, matching the FIXME on the repository's `#[ignore]`d
`basic` test): after the first source's four samples have all been returned,
`channels()` and `sample_rate()` still report the exhausted first source's
values (1, 48000) rather than switching to the second source's (2, 96000);
the switch only happens during the following production request. -/
theorem c2_channels_lag_after_exhaustion :
    (run 4 basic_queue).1 = [some 10, some (-10), some 10, some (-10)] ∧
      channels (run 4 basic_queue).2 = 1 ∧
      sample_rate (run 4 basic_queue).2 = 48000 ∧
      (run 5 basic_queue).1.getLast? = some (some 5) := by
  refine ⟨?_, ?_, ?_, ?_⟩ <;>
    simp [run, next, loopBody, drain, read_command_channel, read_sound_channel,
      go_next, handle_command, basic_queue, basic_first, basic_second, queue2,
      Empty_new, Controller.append, channels, sample_rate]

/-- Claim C7: with keep-alive enabled and nothing queued, appended or pending
anywhere (current exhausted, channels empty), every production request yields
a zero-valued sample; the stream never ends. -/
theorem c7_keep_alive_silence (q : QState) (h1 : q.keep_alive_if_empty = true)
    (h2 : q.sound_queue = []) (h3 : q.sound_channel = [])
    (h4 : q.command_channel = []) (h5 : q.current.samples = [])
    (h6 : q.paused = false) (N : Nat) :
    (run N q).1 = List.replicate N (some 0) :=
  run_allzero N q ⟨by rw [h5]; simp, h2, h3, h4, h1, h6⟩

theorem c7_keep_alive_silence_witness :
    (run 1000 (queue2 true)).1 = List.replicate 1000 (some 0) :=
  c7_keep_alive_silence (queue2 true) rfl rfl rfl rfl rfl rfl 1000

/-- The second and third tiers of the claimed `current_frame_len` fallback,
written from the spec's words: the remaining-length estimate if it is nonzero
and strictly smaller than 512, else exactly 512. -/
def claimFrameLenTier2 (sh : Option Nat) : Nat :=
  match sh with
  | some v => if v ≠ 0 ∧ v < 512 then v else 512
  | none => 512

/-- The claimed `current_frame_len` value, written from the spec's words: the
current source's reported frame length if nonzero, otherwise the tier-2/3
fallback. -/
def claimFrameLen (s : Src) : Nat :=
  match s.frameLen with
  | some v => if v ≠ 0 then v else claimFrameLenTier2 s.sizeHintHi
  | none => claimFrameLenTier2 s.sizeHintHi

theorem tier2_eq (sh : Option Nat) :
    frameLenFromSizeHint sh = some (claimFrameLenTier2 sh) := by
  unfold frameLenFromSizeHint claimFrameLenTier2 THRESHOLD
  cases sh with
  | none => rfl
  | some v =>
    by_cases h0 : v = 0
    · simp [h0]
    · by_cases hlt : v < 512
      · simp [h0, hlt]
      · simp [h0, hlt]

/-- Claim C8: in every state, `current_frame_len` returns the current
source's reported frame length if nonzero; otherwise its size-hint upper
bound if that is nonzero and strictly smaller than 512; otherwise exactly
512. -/
theorem c8_frame_len_three_tier (q : QState) :
    current_frame_len q = some (claimFrameLen q.current) := by
  unfold current_frame_len claimFrameLen
  cases q.current.frameLen with
  | none => exact tier2_eq q.current.sizeHintHi
  | some v =>
    show (if v ≠ 0 then some v else frameLenFromSizeHint q.current.sizeHintHi)
        = some (if v ≠ 0 then v else claimFrameLenTier2 q.current.sizeHintHi)
    by_cases h0 : v = 0
    · rw [if_neg (by simp [h0]), if_neg (by simp [h0])]
      exact tier2_eq q.current.sizeHintHi
    · rw [if_pos h0, if_pos h0]

set_option maxRecDepth 4000 in
/-- Claim C10: whenever `go_next` finds the pending queue empty with
keep-alive enabled, the installed silence source has exactly 1 channel,
sample rate 44100 and 10 ms worth of samples, so during keep-alive silence
the consumer reports `channels() = 1` and `sample_rate() = 44100` regardless
of any previously played source. -/
theorem c10_keep_alive_silence_format (q : QState)
    (h1 : q.sound_queue = []) (h2 : q.keep_alive_if_empty = true) :
    go_next q = some { q with current := Zero_take_duration 1 44100 10 } ∧
      channels { q with current := Zero_take_duration 1 44100 10 } = 1 ∧
      sample_rate { q with current := Zero_take_duration 1 44100 10 } = 44100 ∧
      (Zero_take_duration 1 44100 10).samples.length * 1000 = 44100 * 10 * 1 := by
  refine ⟨?_, rfl, rfl, ?_⟩
  · unfold go_next
    rw [h1, if_pos h2]
  · show (List.replicate (44100 * 10 / 1000 * 1) (0 : Int)).length * 1000
        = 44100 * 10 * 1
    rw [List.length_replicate]

theorem c10_keep_alive_silence_format_witness :
    go_next (queue2 true)
        = some { queue2 true with current := Zero_take_duration 1 44100 10 } ∧
      channels { queue2 true with current := Zero_take_duration 1 44100 10 } = 1 ∧
      sample_rate { queue2 true with current := Zero_take_duration 1 44100 10 } = 44100 ∧
      (Zero_take_duration 1 44100 10).samples.length * 1000 = 44100 * 10 * 1 :=
  c10_keep_alive_silence_format (queue2 true) rfl rfl

/-- A state about to process `Stop` with keep-alive disabled while the
current source still holds a sample. -/
def stop_pending : QState :=
  ⟨[], ⟨[5], 1, 44100, none, none⟩, false, false, [Cmd.stop], []⟩

/-- Claim C3 counterexample: with keep-alive disabled, processing `Stop`
does not end the stream immediately — `go_next` fails on the cleared queue,
the current source is kept, and its remaining sample is still produced. -/
theorem c3_stop_not_immediate_end :
    stop_pending.command_channel = [Cmd.stop] ∧
      stop_pending.keep_alive_if_empty = false ∧
      (next stop_pending).1 = some 5 := by
  refine ⟨rfl, rfl, ?_⟩
  simp [next, loopBody, drain, read_command_channel, read_sound_channel,
    go_next, handle_command, stop_pending]

/-- Claim C3 (amended): processing `Stop` clears the pending queue and then
attempts the forced advance.  Under keep-alive the advance installs silence,
so continued production yields zero-valued samples indefinitely even if
sources were pending; with keep-alive disabled the advance fails, the current
source keeps playing its remaining samples, and only after they are gone does
production yield end-of-stream. -/
theorem c3_stop_amended :
    (∀ (q : QState) (N : Nat), q.command_channel = [Cmd.stop] →
        q.sound_channel = [] → q.keep_alive_if_empty = true → q.paused = false →
        (run N q).1 = List.replicate N (some 0)) ∧
    (∀ (q : QState), q.command_channel = [Cmd.stop] → q.sound_channel = [] →
        q.keep_alive_if_empty = false → q.paused = false →
        (run (q.current.samples.length + 1) q).1
          = q.current.samples.map some ++ [none]) := by
  constructor
  · intro q N hc hs hk hp
    have hdq : drain q
        = (⟨[], Zero_take_duration 1 44100 10, true, false, [], []⟩ : QState) := by
      simp [drain, read_command_channel, hc, handle_command, go_next,
        read_sound_channel, hk, hp, hs]
    have hnext : next q
        = next (⟨[], Zero_take_duration 1 44100 10, true, false, [], []⟩ : QState) := by
      rw [next_drain (by rw [hdq]; rfl), hdq]
    calc (run N q).1
        = (run N (⟨[], Zero_take_duration 1 44100 10, true, false, [], []⟩ : QState)).1 :=
          run_fst_congr N hnext
      _ = List.replicate N (some 0) :=
          run_allzero N _
            ⟨fun x hx => List.eq_of_mem_replicate hx, rfl, rfl, rfl, rfl, rfl⟩
  · intro q hc hs hk hp
    have hdq : drain q = { q with command_channel := [], sound_queue := [] } := by
      simp [drain, read_command_channel, hc, handle_command, go_next,
        read_sound_channel, hk, hs]
    have hidem : drain (drain q) = drain q := by
      rw [hdq]
      unfold drain
      rw [@read_command_of_nil { q with command_channel := [], sound_queue := [] } rfl,
        @read_sound_of_nil { q with command_channel := [], sound_queue := [] } hs]
    have hnext : next q = next { q with command_channel := [], sound_queue := [] } := by
      rw [next_drain hidem, hdq]
    have htot : totalSamples { q with command_channel := [], sound_queue := [] }
        = q.current.samples := by
      simp [totalSamples, hs]
    calc (run (q.current.samples.length + 1) q).1
        = (run (q.current.samples.length + 1)
            { q with command_channel := [], sound_queue := [] }).1 :=
          run_fst_congr _ hnext
      _ = q.current.samples.map some ++ [none] :=
          run_quiet q.current.samples _ ⟨rfl, hp, hk⟩ htot

theorem c3_stop_amended_witness :
    (run 3 (⟨[⟨[9], 1, 44100, none, none⟩], ⟨[7, 8], 2, 22050, none, none⟩,
        true, false, [Cmd.stop], []⟩ : QState)).1 = List.replicate 3 (some 0) ∧
      (run 2 stop_pending).1 = [some 5, none] :=
  ⟨c3_stop_amended.1 _ 3 rfl rfl rfl rfl,
    c3_stop_amended.2 stop_pending rfl rfl rfl rfl⟩

/-- A state about to process `NextTrack` with keep-alive disabled, an empty
pending queue and a current source still holding samples. -/
def skip_pending : QState :=
  ⟨[], ⟨[7, 8], 1, 44100, none, none⟩, false, false, [Cmd.next_track], []⟩

/-- Claim C4 counterexample: with the pending queue empty and keep-alive
disabled, processing `NextTrack` does not discard the current source's
remainder; the advance fails and the current source's next sample is still
produced. -/
theorem c4_next_track_not_always_advancing :
    skip_pending.command_channel = [Cmd.next_track] ∧
      skip_pending.sound_queue = [] ∧
      (next skip_pending).1 = some 7 := by
  refine ⟨rfl, rfl, ?_⟩
  simp [next, loopBody, drain, read_command_channel, read_sound_channel,
    go_next, handle_command, skip_pending]

/-- Claim C4 (amended): processing `NextTrack` performs the advance whenever
a next pending source exists (the current source's remainder is discarded and
the pending sources play out) or keep-alive is enabled (silence becomes
current); but with an empty pending queue and keep-alive disabled the advance
fails and the current source keeps playing its remainder before
end-of-stream. -/
theorem c4_next_track_amended :
    (∀ (q : QState) (s : Src) (rest : List Src),
        q.command_channel = [Cmd.next_track] → q.sound_channel = [] →
        q.paused = false → q.keep_alive_if_empty = false →
        q.sound_queue = s :: rest →
        (run ((s.samples ++ (rest.map Src.samples).flatten).length + 1) q).1
          = (s.samples ++ (rest.map Src.samples).flatten).map some ++ [none]) ∧
    (∀ (q : QState), q.command_channel = [Cmd.next_track] → q.sound_channel = [] →
        q.paused = false → q.keep_alive_if_empty = false → q.sound_queue = [] →
        (run (q.current.samples.length + 1) q).1
          = q.current.samples.map some ++ [none]) ∧
    (∀ (q : QState) (N : Nat), q.command_channel = [Cmd.next_track] →
        q.sound_channel = [] → q.paused = false → q.keep_alive_if_empty = true →
        q.sound_queue = [] →
        (run N q).1 = List.replicate N (some 0)) := by
  refine ⟨?_, ?_, ?_⟩
  · intro q s rest hc hs hp hk hq
    have hdq : drain q
        = { q with command_channel := [], current := s, sound_queue := rest } := by
      simp [drain, read_command_channel, hc, handle_command, go_next, hq,
        read_sound_channel, hs]
    have hidem : drain (drain q) = drain q := by
      rw [hdq]
      unfold drain
      rw [@read_command_of_nil
          { q with command_channel := [], current := s, sound_queue := rest } rfl,
        @read_sound_of_nil
          { q with command_channel := [], current := s, sound_queue := rest } hs]
    have hnext : next q
        = next { q with command_channel := [], current := s, sound_queue := rest } := by
      rw [next_drain hidem, hdq]
    have htot : totalSamples { q with command_channel := [], current := s, sound_queue := rest }
        = s.samples ++ (rest.map Src.samples).flatten := by
      simp [totalSamples, hs]
    calc (run ((s.samples ++ (rest.map Src.samples).flatten).length + 1) q).1
        = (run ((s.samples ++ (rest.map Src.samples).flatten).length + 1)
            { q with command_channel := [], current := s, sound_queue := rest }).1 :=
          run_fst_congr _ hnext
      _ = (s.samples ++ (rest.map Src.samples).flatten).map some ++ [none] :=
          run_quiet _ _ ⟨rfl, hp, hk⟩ htot
  · intro q hc hs hp hk hq
    have hdq : drain q = { q with command_channel := [] } := by
      simp [drain, read_command_channel, hc, handle_command, go_next, hq, hk,
        read_sound_channel, hs]
    have hidem : drain (drain q) = drain q := by
      rw [hdq]
      unfold drain
      rw [@read_command_of_nil { q with command_channel := [] } rfl,
        @read_sound_of_nil { q with command_channel := [] } hs]
    have hnext : next q = next { q with command_channel := [] } := by
      rw [next_drain hidem, hdq]
    have htot : totalSamples { q with command_channel := [] }
        = q.current.samples := by
      simp [totalSamples, hs, hq]
    calc (run (q.current.samples.length + 1) q).1
        = (run (q.current.samples.length + 1) { q with command_channel := [] }).1 :=
          run_fst_congr _ hnext
      _ = q.current.samples.map some ++ [none] :=
          run_quiet q.current.samples _ ⟨rfl, hp, hk⟩ htot
  · intro q N hc hs hp hk hq
    have hdq : drain q
        = (⟨[], Zero_take_duration 1 44100 10, true, false, [], []⟩ : QState) := by
      simp [drain, read_command_channel, hc, handle_command, go_next, hq, hk,
        hp, read_sound_channel, hs]
    have hnext : next q
        = next (⟨[], Zero_take_duration 1 44100 10, true, false, [], []⟩ : QState) := by
      rw [next_drain (by rw [hdq]; rfl), hdq]
    calc (run N q).1
        = (run N (⟨[], Zero_take_duration 1 44100 10, true, false, [], []⟩ : QState)).1 :=
          run_fst_congr N hnext
      _ = List.replicate N (some 0) :=
          run_allzero N _
            ⟨fun x hx => List.eq_of_mem_replicate hx, rfl, rfl, rfl, rfl, rfl⟩

theorem c4_next_track_amended_witness :
    (run 3 (⟨[⟨[4, 5], 2, 88200, none, none⟩], ⟨[7, 8], 1, 44100, none, none⟩,
        false, false, [Cmd.next_track], []⟩ : QState)).1
        = [some 4, some 5, none] ∧
      (run 3 skip_pending).1 = [some 7, some 8, none] ∧
      (run 2 (⟨[], ⟨[7, 8], 1, 44100, none, none⟩, true, false,
        [Cmd.next_track], []⟩ : QState)).1 = List.replicate 2 (some 0) :=
  ⟨c4_next_track_amended.1
      (⟨[⟨[4, 5], 2, 88200, none, none⟩], ⟨[7, 8], 1, 44100, none, none⟩,
        false, false, [Cmd.next_track], []⟩ : QState)
      (⟨[4, 5], 2, 88200, none, none⟩ : Src) [] rfl rfl rfl rfl rfl,
    c4_next_track_amended.2.1 skip_pending rfl rfl rfl rfl rfl,
    c4_next_track_amended.2.2
      (⟨[], ⟨[7, 8], 1, 44100, none, none⟩, true, false,
        [Cmd.next_track], []⟩ : QState) 2 rfl rfl rfl rfl rfl⟩

/-- A single-sample source appended after end-of-stream has been signalled. -/
def revival_src : Src := ⟨[3], 1, 44100, none, some 1⟩

/-- Claim C5 counterexample: with keep-alive disabled, after the consumer has
signalled end-of-stream on a fresh empty queue, appending a new source makes
production resume — the exhausted condition is not terminal. -/
theorem c5_exhaustion_not_terminal :
    (next (queue2 false)).1 = none ∧
      (next (Controller.append (next (queue2 false)).2 revival_src)).1 = some 3 := by
  constructor <;>
    simp [next, loopBody, drain, read_command_channel, read_sound_channel,
      go_next, handle_command, queue2, Empty_new, Controller.append, revival_src]

/-- Claim C5 (amended): with keep-alive disabled, end-of-stream is not
latched.  A request yields end-of-stream exactly while no samples are pending
anywhere, and if a new source is appended afterwards the following request
produces its first sample. -/
theorem c5_exhaustion_amended (q : QState) (hq : Quiet q)
    (ht : totalSamples q = []) (s : Src) (a : Int) (t : List Int)
    (hs : s.samples = a :: t) :
    (next q).1 = none ∧ (next (Controller.append (next q).2 s)).1 = some a := by
  obtain ⟨h1, h2, h3⟩ := next_quiet q hq
  constructor
  · rw [h1, ht]
    rfl
  · have hq2 : Quiet (Controller.append (next q).2 s) := by
      obtain ⟨a1, a2, a3⟩ := h3
      exact ⟨a1, a2, a3⟩
    have ht2 : totalSamples (Controller.append (next q).2 s) = a :: t := by
      rw [totalSamples_append, h2, ht, hs]
      rfl
    obtain ⟨g1, g2, g3⟩ := next_quiet _ hq2
    rw [g1, ht2]
    rfl

theorem c5_exhaustion_amended_witness :
    (next (⟨[], ⟨[], 2, 96000, none, none⟩, false, false, [], []⟩ : QState)).1 = none ∧
      (next (Controller.append
        (next (⟨[], ⟨[], 2, 96000, none, none⟩, false, false, [], []⟩ : QState)).2
        (⟨[9, 8], 1, 22050, none, none⟩ : Src))).1 = some 9 :=
  c5_exhaustion_amended (⟨[], ⟨[], 2, 96000, none, none⟩, false, false, [], []⟩ : QState)
    ⟨rfl, rfl, rfl⟩ rfl (⟨[9, 8], 1, 22050, none, none⟩ : Src) 9 [8] rfl

/-- Claim C6: while paused (a `Pause` already processed, no further command
pending), every production request returns a zero-valued sample and leaves
the current source untouched; after any number N of such requests, once a
`Play` is processed the very next request resumes with exactly the sample at
which the current source was left. -/
theorem c6_pause_freezes_play_resumes (q : QState) (a : Int) (t : List Int)
    (hp : q.paused = true) (hc : q.command_channel = [])
    (ha : q.current.samples = a :: t) (N : Nat) :
    (run N q).1 = List.replicate N (some 0) ∧
      (run N q).2.current = q.current ∧
      (next (Controller.play (run N q).2)).1 = some a ∧
      (next (Controller.play (run N q).2)).2.current.samples = t := by
  obtain ⟨i1, i2, i3, i4⟩ := run_paused N q hp hc
  have h5 : read_command_channel (Controller.play (run N q).2)
      = { (run N q).2 with command_channel := [], paused := false } := by
    simp [Controller.play, read_command_channel, i4, handle_command]
  have hdr : drain (Controller.play (run N q).2)
      = read_sound_channel { (run N q).2 with command_channel := [], paused := false } := by
    unfold drain
    rw [h5]
  have hcs : (read_sound_channel
        { (run N q).2 with command_channel := [], paused := false }).current.samples
      = a :: t := by
    rw [read_sound_current]
    show (run N q).2.current.samples = a :: t
    rw [i2, ha]
  have hps : (read_sound_channel
        { (run N q).2 with command_channel := [], paused := false }).paused
      = false := by
    rw [read_sound_paused]
  have hn := next_done (by rw [hdr]; exact loopBody_pop hps hcs)
  exact ⟨i1, i2, by rw [hn], by rw [hn]⟩

theorem c6_pause_freezes_play_resumes_witness :
    (run 2 (⟨[], ⟨[7, 8], 1, 44100, none, none⟩, false, true, [], []⟩ : QState)).1
        = List.replicate 2 (some 0) ∧
      (run 2 (⟨[], ⟨[7, 8], 1, 44100, none, none⟩, false, true, [], []⟩ : QState)).2.current
        = (⟨[7, 8], 1, 44100, none, none⟩ : Src) ∧
      (next (Controller.play
        (run 2 (⟨[], ⟨[7, 8], 1, 44100, none, none⟩, false, true, [], []⟩ : QState)).2)).1
        = some 7 ∧
      (next (Controller.play
        (run 2 (⟨[], ⟨[7, 8], 1, 44100, none, none⟩, false, true, [], []⟩ : QState)).2)).2.current.samples
        = [8] :=
  c6_pause_freezes_play_resumes
    (⟨[], ⟨[7, 8], 1, 44100, none, none⟩, false, true, [], []⟩ : QState)
    7 [8] rfl rfl rfl 2

/-- A state whose sound channel holds two appended sources while the current
source still has samples. -/
def two_waiting : QState :=
  ⟨[], ⟨[1, 2], 1, 44100, none, none⟩, false, false, [],
    [⟨[5], 1, 44100, none, none⟩, ⟨[6], 1, 44100, none, none⟩]⟩

/-- Claim C9 counterexample: a production request moves only one source out
of the sound channel, so with two sources waiting the channel is not empty
after the request. -/
theorem c9_channel_not_fully_drained :
    two_waiting.sound_channel.length = 2 ∧
      (next two_waiting).2.sound_channel = [⟨[6], 1, 44100, none, none⟩] := by
  refine ⟨rfl, ?_⟩
  simp [next, loopBody, drain, read_command_channel, read_sound_channel,
    go_next, handle_command, two_waiting]

/-- Claim C9 (amended): each loop iteration of a production request moves at
most one source — the oldest — from the sound channel to the back of the
pending queue.  In the common case (no command pending, not paused, current
source yields a sample) exactly one source is moved, order is preserved, and
the remaining sources stay in the channel. -/
theorem c9_moves_one_source_per_request (q : QState) (s : Src) (rest : List Src)
    (a : Int) (t : List Int) (hc : q.command_channel = []) (hp : q.paused = false)
    (ha : q.current.samples = a :: t) (hs : q.sound_channel = s :: rest) :
    next q = (some a,
      { q with current := { q.current with samples := t },
               sound_queue := q.sound_queue ++ [s], sound_channel := rest }) := by
  have hd : drain q
      = { q with sound_queue := q.sound_queue ++ [s], sound_channel := rest } := by
    unfold drain
    rw [read_command_of_nil hc]
    simp [read_sound_channel, hs]
  have hcs : ({ q with
      sound_queue := q.sound_queue ++ [s],
      sound_channel := rest } : QState).current.samples = a :: t := ha
  exact next_done (by rw [hd]; exact loopBody_pop hp hcs)

theorem c9_moves_one_source_per_request_witness :
    next two_waiting = (some 1,
      (⟨[⟨[5], 1, 44100, none, none⟩], ⟨[2], 1, 44100, none, none⟩, false, false, [],
        [⟨[6], 1, 44100, none, none⟩]⟩ : QState)) :=
  c9_moves_one_source_per_request two_waiting
    (⟨[5], 1, 44100, none, none⟩ : Src) [⟨[6], 1, 44100, none, none⟩]
    1 [2] rfl rfl rfl rfl
